import Mathlib

/-!
# Verification of the TinderPhotoDeleter review-session state machine

Shallow embedding of the two reviewers in the repository:

* `src/Image.py` — class `ImageReviewer` with `delete_image`, `keep_image`,
  `go_back`, `show_image`;
* `src/Video.py` — class `VideoReviewer` with `delete_video`, `keep_video`,
  `go_back`, `show_video`.

The in-memory session state of each reviewer (the path list, the cursor
`index`, the `deleted_count` / `kept_count` counters and the `history`
stack) is embedded as a Lean structure, and every key handler is embedded
as a pure function on that structure.  The filesystem is embedded as an
association list from paths to file identities, and `os.rename` as a move
that (as on POSIX) silently replaces an existing destination.  Filesystem
moves can also fail for external reasons (permissions, cross-device links,
a vanished source); each operation that performs a move therefore takes an
explicit `ok : Bool` oracle telling whether that move succeeds, exactly
mirroring the `try: os.rename(...) except ...` split in the source.

Python runtime exceptions raised inside a handler are embedded explicitly:
a handler returns a `PyRet` (the `"break"` string every handler returns,
or the exception that propagated) together with the state the object is
left in.  A raised exception in a Tkinter callback does not roll back the
instance fields already assigned, so the returned state carries every
mutation performed before the raise.
-/

/-- Exceptions that the embedded handlers can raise.  `ImageReviewer.go_back`
raises `ValueError` when it unpacks the 3-tuple `("delete", deleted_path,
original_path)` into the two names `deleted_path, original_path`
(src/Image.py line 149), and `TypeError` when it applies `os.path.basename`
to the whole `("keep", path)` tuple (src/Image.py line 161). -/
inductive PyExn where
  | valueError
  | typeError
deriving DecidableEq, Repr

/-- What a key handler gives back to Tkinter: the value it returns
(every handler in the source returns the string `"break"` on every
non-raising path) or the exception that propagated out of it. -/
inductive PyRet where
  | ret (value : String)
  | raised (e : PyExn)
deriving DecidableEq, Repr

/-- The characters after the last `'/'`: fold along the path, restarting
the accumulator at every slash. -/
def basenameChars (cs : List Char) : List Char :=
  cs.foldl (fun acc c => if c = '/' then [] else acc ++ [c]) []

/-- `os.path.basename`: the part of the path after the final slash. -/
def basename (p : String) : String :=
  ⟨basenameChars p.data⟩

/-- `os.path.join` for the shapes used by the program (a directory joined
with a bare basename). -/
def pathJoin (dir name : String) : String :=
  dir ++ "/" ++ name

/-- The filesystem, as an association list from absolute paths to file
identities.  The identity (a `Nat`) stands for the file's content, so a
silently overwritten file is visible as a vanished identity. -/
abbrev FS := List (String × Nat)

/-- Look up the file identity stored at a path, if any. -/
def fsLookup (fs : FS) (p : String) : Option Nat :=
  (fs.find? (fun e => e.1 = p)).map (·.2)

/-- Remove the entry at a path. -/
def fsErase (fs : FS) (p : String) : FS :=
  fs.filter (fun e => e.1 ≠ p)

/-- `os.rename src dst` on POSIX: move the file at `src` to `dst`,
silently replacing whatever was at `dst`.  If `src` is absent the
filesystem is returned unchanged (the embedded operations only invoke
this when the success oracle says the rename succeeded). -/
def fsRename (fs : FS) (src dst : String) : FS :=
  match fsLookup fs src with
  | none => fs
  | some v => (dst, v) :: fsErase (fsErase fs src) dst

/-- A history entry of `ImageReviewer`: `("delete", deleted_path,
original_path)` pushed at src/Image.py line 117, or `("keep", path)`
pushed at line 133.  The image entries carry no queue index. -/
inductive ImgEntry where
  | delete (deleted_path original_path : String)
  | keep (path : String)
deriving DecidableEq, Repr

/-- The session state of `ImageReviewer` (src/Image.py lines 29-37):
folder, `_deleted` folder, path list, cursor, counters and history stack
(head of the list = top of the stack), plus the embedded filesystem. -/
structure ImgState where
  folder : String
  deleted_folder : String
  image_paths : List String
  index : Nat
  deleted_count : Int
  kept_count : Int
  history : List ImgEntry
  fs : FS
deriving DecidableEq, Repr

namespace ImageReviewer

/-- `ImageReviewer.delete_image` (src/Image.py lines 106-125).  If the
cursor is past the end it returns `"break"` untouched.  Otherwise it tries
to rename the current file into `_deleted`; on success it pushes a delete
entry and increments `deleted_count`; on failure it only prints to the
console.  In BOTH cases it then executes `del self.image_paths[self.index]`,
so the current item leaves the queue even when the move failed. -/
def delete_image (ok : Bool) (s : ImgState) : PyRet × ImgState :=
  if s.index ≥ s.image_paths.length then (.ret "break", s)
  else
    let original_path := s.image_paths.getD s.index ""
    let deleted_path := pathJoin s.deleted_folder (basename original_path)
    if ok then
      (.ret "break",
        { s with
          fs := fsRename s.fs original_path deleted_path,
          history := .delete deleted_path original_path :: s.history,
          deleted_count := s.deleted_count + 1,
          image_paths := s.image_paths.eraseIdx s.index })
    else
      (.ret "break", { s with image_paths := s.image_paths.eraseIdx s.index })

/-- `ImageReviewer.keep_image` (src/Image.py lines 127-140): guard, push
`("keep", path)`, increment `kept_count`, advance the cursor. -/
def keep_image (s : ImgState) : PyRet × ImgState :=
  if s.index ≥ s.image_paths.length then (.ret "break", s)
  else
    (.ret "break",
      { s with
        history := .keep (s.image_paths.getD s.index "") :: s.history,
        kept_count := s.kept_count + 1,
        index := s.index + 1 })

/-- `ImageReviewer.go_back` (src/Image.py lines 142-165).  With an empty
history it returns `"break"`.  With a delete entry on top, line 149
(`deleted_path, original_path = action_tup`) unpacks a 3-tuple into two
names and raises `ValueError` — after the entry was already popped and
before any restore is attempted.  With a keep entry on top, lines 158-160
bind the whole tuple to `path`, decrement `kept_count` and retreat the
cursor (`max(0, index - 1)`, which is `Nat` subtraction), and then line 161
applies `os.path.basename` to the tuple and raises `TypeError`; the
mutations already performed stay. -/
def go_back (s : ImgState) : PyRet × ImgState :=
  match s.history with
  | [] => (.ret "break", s)
  | .delete _ _ :: t => (.raised .valueError, { s with history := t })
  | .keep _ :: t =>
      (.raised .typeError,
        { s with history := t, kept_count := s.kept_count - 1, index := s.index - 1 })

/-- `ImageReviewer.show_image` (src/Image.py lines 85-104), restricted to
its effect on the session state.  Past the end, and when the current image
loads, it only touches rendering fields.  When `Image.open` raises
(`loadable` is false on the current path) line 101 calls `delete_image`,
so the broken file is treated as an implicit delete.  The recursive
re-render inside `delete_image` is taken one level deep: it has no further
state effect when the next item loads or the queue is exhausted. -/
def show_image (loadable : String → Bool) (ok : Bool) (s : ImgState) : ImgState :=
  if s.index ≥ s.image_paths.length then s
  else if loadable (s.image_paths.getD s.index "") then s
  else (delete_image ok s).2

end ImageReviewer

/-- `list.index(x)` from Python: the position of the first occurrence,
or `none` (a raised `ValueError`) when absent. -/
def listIndex : List String → String → Option Nat
  | [], _ => none
  | x :: xs, p => if x = p then some 0 else (listIndex xs p).map (· + 1)

/-- `list.insert(i, x)` from Python: insert before position `i`, clamping
`i` to the length (an index past the end appends). -/
def listInsert : Nat → String → List String → List String
  | _, a, [] => [a]
  | 0, a, xs => a :: xs
  | n + 1, a, x :: xs => x :: listInsert n a xs

/-- A history entry of `VideoReviewer`: `("delete", deleted_path,
original_path, index)` pushed at src/Video.py line 267, or
`("keep", path, index)` pushed at line 292. -/
inductive VidEntry where
  | delete (deleted_path original_path : String) (index : Nat)
  | keep (path : String) (index : Nat)
deriving DecidableEq, Repr

/-- The session state of `VideoReviewer` (src/Video.py lines 99-106),
with the same reading as `ImgState`. -/
structure VidState where
  folder : String
  deleted_folder : String
  video_paths : List String
  index : Nat
  deleted_count : Int
  kept_count : Int
  history : List VidEntry
  fs : FS
deriving DecidableEq, Repr

namespace VideoReviewer

/-- `VideoReviewer.delete_video` (src/Video.py lines 252-280).  Guard on
the cursor; try the rename into `_deleted`.  On failure it shows an error
box and returns `"break"` with nothing mutated.  On success it pushes
`("delete", deleted_path, original_path, index)`, increments
`deleted_count`, executes `del self.video_paths[self.index]`, and then
(lines 275-276) renormalises the cursor with
`if index >= len: index = max(0, len)`. -/
def delete_video (ok : Bool) (s : VidState) : PyRet × VidState :=
  if s.index ≥ s.video_paths.length then (.ret "break", s)
  else
    let original_path := s.video_paths.getD s.index ""
    let deleted_path := pathJoin s.deleted_folder (basename original_path)
    if ok then
      let s1 : VidState :=
        { s with
          fs := fsRename s.fs original_path deleted_path,
          history := .delete deleted_path original_path s.index :: s.history,
          deleted_count := s.deleted_count + 1,
          video_paths := s.video_paths.eraseIdx s.index }
      (.ret "break",
        if s1.index ≥ s1.video_paths.length
        then { s1 with index := max 0 s1.video_paths.length }
        else s1)
    else (.ret "break", s)

/-- `VideoReviewer.keep_video` (src/Video.py lines 282-298): guard, push
`("keep", path, index)`, increment `kept_count`, advance the cursor. -/
def keep_video (s : VidState) : PyRet × VidState :=
  if s.index ≥ s.video_paths.length then (.ret "break", s)
  else
    (.ret "break",
      { s with
        history := .keep (s.video_paths.getD s.index "") s.index :: s.history,
        kept_count := s.kept_count + 1,
        index := s.index + 1 })

/-- `VideoReviewer.go_back` (src/Video.py lines 336-374).  Pop the top
entry.  For a delete entry, try to rename the file back; on failure show
an error box and return — the popped entry is NOT re-pushed; on success
insert the original path at `min(prev_index, len)`, set the cursor there
and decrement `deleted_count`.  For a keep entry, decrement `kept_count`,
then set the cursor to `video_paths.index(path)`; if the path is absent
(`ValueError`), re-insert it at `min(prev_index, len)` and point the
cursor there. -/
def go_back (ok : Bool) (s : VidState) : PyRet × VidState :=
  match s.history with
  | [] => (.ret "break", s)
  | .delete deleted_path original_path prev_index :: t =>
      if ok then
        let insert_index := min prev_index s.video_paths.length
        (.ret "break",
          { s with
            history := t,
            fs := fsRename s.fs deleted_path original_path,
            video_paths := listInsert insert_index original_path s.video_paths,
            index := insert_index,
            deleted_count := s.deleted_count - 1 })
      else (.ret "break", { s with history := t })
  | .keep path prev_index :: t =>
      match listIndex s.video_paths path with
      | some pos =>
          (.ret "break",
            { s with history := t, kept_count := s.kept_count - 1, index := pos })
      | none =>
          let insert_index := min prev_index s.video_paths.length
          (.ret "break",
            { s with
              history := t,
              kept_count := s.kept_count - 1,
              video_paths := listInsert insert_index path s.video_paths,
              index := insert_index })

/-- `VideoReviewer.show_video` (src/Video.py lines 225-250), restricted to
its effect on the session state.  The method stops the player, updates the
overlay label, hands the media to VLC and plays it; none of the session
fields (`video_paths`, `index`, the counters, `history`) nor the
filesystem is touched, and — unlike `ImageReviewer.show_image` — there is
no branch reacting to an unloadable file, so the state effect is the
identity whatever `loadable` says about the current item. -/
def show_video (loadable : String → Bool) (s : VidState) : VidState :=
  s

end VideoReviewer

/-- One user action of a review session: the keep key, the delete key, or
undo.  `ok` is the success oracle for the filesystem move the action may
perform (`os.rename` into or out of `_deleted`). -/
inductive Op where
  | keep
  | delete (ok : Bool)
  | undo (ok : Bool)
deriving DecidableEq, Repr

/-- Whether the action's filesystem move (if any) succeeds. -/
def Op.succeeds : Op → Bool
  | .keep => true
  | .delete ok => ok
  | .undo ok => ok

/-- Dispatch one action to the `ImageReviewer` handlers (the key bindings
at src/Image.py lines 40-48).  `go_back` performs no filesystem move
before it raises, so the undo oracle is unused. -/
def imgStep (o : Op) (s : ImgState) : ImgState :=
  match o with
  | .keep => (ImageReviewer.keep_image s).2
  | .delete ok => (ImageReviewer.delete_image ok s).2
  | .undo _ => (ImageReviewer.go_back s).2

/-- Run a sequence of actions on an `ImageReviewer` state. -/
def imgRun (ops : List Op) (s : ImgState) : ImgState :=
  ops.foldl (fun t o => imgStep o t) s

/-- Dispatch one action to the `VideoReviewer` handlers (the key bindings
at src/Video.py lines 109-119). -/
def vidStep (o : Op) (s : VidState) : VidState :=
  match o with
  | .keep => (VideoReviewer.keep_video s).2
  | .delete ok => (VideoReviewer.delete_video ok s).2
  | .undo ok => (VideoReviewer.go_back ok s).2

/-- Run a sequence of actions on a `VideoReviewer` state. -/
def vidRun (ops : List Op) (s : VidState) : VidState :=
  ops.foldl (fun t o => vidStep o t) s

/-- The `ImageReviewer` state right after `select_folder`
(src/Image.py lines 55-78): `paths` is the scanned, filtered and sorted
listing, the quarantine directory is `folder/_deleted`, cursor and
counters are zero and the history is empty. -/
def imgInit (folder : String) (paths : List String) (fs : FS) : ImgState :=
  { folder := folder
    deleted_folder := pathJoin folder "_deleted"
    image_paths := paths
    index := 0
    deleted_count := 0
    kept_count := 0
    history := []
    fs := fs }

/-- The `VideoReviewer` state right after `select_folder`
(src/Video.py lines 182-208). -/
def vidInit (folder : String) (paths : List String) (fs : FS) : VidState :=
  { folder := folder
    deleted_folder := pathJoin folder "_deleted"
    video_paths := paths
    index := 0
    deleted_count := 0
    kept_count := 0
    history := []
    fs := fs }

/-- Number of keep-tagged entries on an `ImageReviewer` history stack. -/
def countKeepImg : List ImgEntry → Int
  | [] => 0
  | .keep _ :: t => countKeepImg t + 1
  | .delete _ _ :: t => countKeepImg t

/-- Number of keep-tagged entries on a `VideoReviewer` history stack. -/
def countKeepVid : List VidEntry → Int
  | [] => 0
  | .keep _ _ :: t => countKeepVid t + 1
  | .delete _ _ _ :: t => countKeepVid t

theorem imgStep_kept_count (o : Op) (s : ImgState)
    (h : s.kept_count = countKeepImg s.history) :
    (imgStep o s).kept_count = countKeepImg (imgStep o s).history := by
  cases o with
  | keep =>
      simp only [imgStep, ImageReviewer.keep_image]
      split
      · exact h
      · simp [countKeepImg, h]
  | delete ok =>
      simp only [imgStep, ImageReviewer.delete_image]
      split
      · exact h
      · cases ok <;> simp [countKeepImg, h]
  | undo ok =>
      simp only [imgStep, ImageReviewer.go_back]
      cases hs : s.history with
      | nil => simpa using h
      | cons e t =>
          cases e <;> simp_all [countKeepImg] <;> omega

theorem vidStep_kept_count (o : Op) (s : VidState)
    (h : s.kept_count = countKeepVid s.history) :
    (vidStep o s).kept_count = countKeepVid (vidStep o s).history := by
  cases o with
  | keep =>
      simp only [vidStep, VideoReviewer.keep_video]
      split
      · exact h
      · simp [countKeepVid, h]
  | delete ok =>
      simp only [vidStep, VideoReviewer.delete_video]
      split
      · exact h
      · cases ok
        · simpa using h
        · simp only [if_true]
          split <;> simp [countKeepVid, h]
  | undo ok =>
      simp only [vidStep, VideoReviewer.go_back]
      cases hs : s.history with
      | nil => simpa using h
      | cons e t =>
          cases e with
          | delete dp op pi =>
              cases ok <;> simp_all [countKeepVid]
          | keep p pi =>
              cases hix : listIndex s.video_paths p <;>
                simp_all [countKeepVid] <;> omega

theorem imgRun_kept_count (ops : List Op) (s : ImgState)
    (h : s.kept_count = countKeepImg s.history) :
    (imgRun ops s).kept_count = countKeepImg (imgRun ops s).history := by
  induction ops generalizing s with
  | nil => simpa [imgRun] using h
  | cons o ops ih =>
      simpa [imgRun, List.foldl_cons] using ih (imgStep o s) (imgStep_kept_count o s h)

theorem vidRun_kept_count (ops : List Op) (s : VidState)
    (h : s.kept_count = countKeepVid s.history) :
    (vidRun ops s).kept_count = countKeepVid (vidRun ops s).history := by
  induction ops generalizing s with
  | nil => simpa [vidRun] using h
  | cons o ops ih =>
      simpa [vidRun, List.foldl_cons] using ih (vidStep o s) (vidStep_kept_count o s h)

/-- C10: after every sequence of keep/delete/undo actions from a freshly
scanned session — whatever the outcome of each filesystem move — the kept
counter equals the number of keep-tagged entries currently on the history
stack, in both the image and the video reviewer. -/
theorem kept_count_eq_keep_entries_on_history (ops : List Op)
    (folder : String) (paths : List String) (fs : FS) :
    (imgRun ops (imgInit folder paths fs)).kept_count
        = countKeepImg (imgRun ops (imgInit folder paths fs)).history ∧
    (vidRun ops (vidInit folder paths fs)).kept_count
        = countKeepVid (vidRun ops (vidInit folder paths fs)).history := by
  constructor
  · exact imgRun_kept_count ops _ (by simp [imgInit, countKeepImg])
  · exact vidRun_kept_count ops _ (by simp [vidInit, countKeepVid])

theorem listInsert_length : ∀ (n : Nat) (a : String) (xs : List String),
    (listInsert n a xs).length = xs.length + 1
  | n, a, [] => by cases n <;> simp [listInsert]
  | 0, a, _ :: _ => by simp [listInsert]
  | n + 1, a, x :: xs => by simp [listInsert, listInsert_length n a xs]

theorem mem_listInsert (b a : String) : ∀ (n : Nat) (xs : List String),
    b ∈ listInsert n a xs ↔ b = a ∨ b ∈ xs
  | n, [] => by cases n <;> simp [listInsert]
  | 0, _ :: _ => by simp [listInsert]
  | n + 1, x :: xs => by
      simp [listInsert, mem_listInsert b a n xs]
      tauto

theorem nodup_listInsert (a : String) : ∀ (n : Nat) (xs : List String),
    xs.Nodup → a ∉ xs → (listInsert n a xs).Nodup
  | n, [], _, _ => by cases n <;> simp [listInsert]
  | 0, x :: xs, h1, h2 => by
      rw [show listInsert 0 a (x :: xs) = a :: x :: xs from rfl]
      exact List.nodup_cons.mpr ⟨h2, h1⟩
  | n + 1, x :: xs, h1, h2 => by
      rcases List.nodup_cons.mp h1 with ⟨hx, hxs⟩
      refine List.nodup_cons.mpr ⟨?_, nodup_listInsert a n xs hxs (fun hm => h2 (List.mem_cons_of_mem x hm))⟩
      rw [mem_listInsert]
      rintro (rfl | hm)
      · exact h2 (List.mem_cons_self x xs)
      · exact hx hm

theorem listInsert_getD_eraseIdx : ∀ (xs : List String) (i : Nat), i < xs.length →
    listInsert i (xs.getD i "") (xs.eraseIdx i) = xs
  | [], i, h => by simp at h
  | x :: xs, 0, _ => by
      cases xs <;> simp [listInsert]
  | x :: xs, i + 1, h => by
      have hi : i < xs.length := by simpa using h
      rw [List.getD_cons_succ, List.eraseIdx_cons_succ]
      rw [show listInsert (i + 1) (xs.getD i "") (x :: xs.eraseIdx i)
            = x :: listInsert i (xs.getD i "") (xs.eraseIdx i) from rfl]
      rw [listInsert_getD_eraseIdx xs i hi]

theorem getD_mem : ∀ (xs : List String) (i : Nat), i < xs.length → xs.getD i "" ∈ xs
  | [], i, h => by simp at h
  | x :: xs, 0, _ => List.mem_cons_self x xs
  | x :: xs, i + 1, h => by
      have : i < xs.length := by simpa using h
      exact List.mem_cons_of_mem x (getD_mem xs i this)

theorem getD_not_mem_eraseIdx : ∀ (xs : List String) (i : Nat),
    xs.Nodup → i < xs.length → xs.getD i "" ∉ xs.eraseIdx i
  | [], i, _, h => by simp at h
  | x :: xs, 0, h1, _ => by
      simpa using (List.nodup_cons.mp h1).1
  | x :: xs, i + 1, h1, h => by
      rcases List.nodup_cons.mp h1 with ⟨hx, hxs⟩
      have hi : i < xs.length := by simpa using h
      simp only [List.getD_cons_succ, List.eraseIdx_cons_succ, List.mem_cons]
      rintro (heq | hm)
      · exact hx (heq ▸ getD_mem xs i hi)
      · exact getD_not_mem_eraseIdx xs i hxs hi hm

theorem listIndex_getD_of_nodup : ∀ (xs : List String) (i : Nat),
    xs.Nodup → i < xs.length → listIndex xs (xs.getD i "") = some i
  | [], i, _, h => by simp at h
  | x :: xs, 0, _, _ => by simp [listIndex]
  | x :: xs, i + 1, h1, h => by
      rcases List.nodup_cons.mp h1 with ⟨hx, hxs⟩
      have hi : i < xs.length := by simpa using h
      have hne : ¬ x = xs.getD i "" := fun heq => hx (heq ▸ getD_mem xs i hi)
      rw [List.getD_cons_succ]
      rw [show listIndex (x :: xs) (xs.getD i "") =
            if x = xs.getD i "" then some 0
            else (listIndex xs (xs.getD i "")).map (· + 1) from rfl]
      rw [if_neg hne, listIndex_getD_of_nodup xs i hxs hi]
      rfl

theorem listIndex_lt_length : ∀ (xs : List String) (p : String) (n : Nat),
    listIndex xs p = some n → n < xs.length
  | [], p, n, h => by simp [listIndex] at h
  | x :: xs, p, n, h => by
      by_cases hx : x = p
      · simp [listIndex, hx] at h
        simp [List.length_cons]
        omega
      · simp only [listIndex, if_neg hx, Option.map_eq_some'] at h
        rcases h with ⟨m, hm, rfl⟩
        have := listIndex_lt_length xs p m hm
        simpa using Nat.succ_lt_succ this

/-- A freshly scanned one-image session: folder `/pics` holding `a.jpg`. -/
def imgOnePic : ImgState :=
  imgInit "/pics" ["/pics/a.jpg"] [("/pics/a.jpg", 1)]

/-- The one-image session after a successful delete: `a.jpg` sits in
quarantine and a delete entry tops the history. -/
def imgAfterDelete : ImgState :=
  (ImageReviewer.delete_image true imgOnePic).2

/-- The one-image session after a keep: the cursor equals the queue
length, so the session is exhausted. -/
def imgExhausted : ImgState :=
  (ImageReviewer.keep_image imgOnePic).2

/-- A freshly scanned one-video session: folder `/vids` holding `x.mp4`. -/
def vidOneVid : VidState :=
  vidInit "/vids" ["/vids/x.mp4"] [("/vids/x.mp4", 1)]

/-- The one-video session after a successful delete. -/
def vidAfterDelete : VidState :=
  (VideoReviewer.delete_video true vidOneVid).2

/-- The one-video session after a keep: exhausted. -/
def vidExhausted : VidState :=
  (VideoReviewer.keep_video vidOneVid).2

/-- C1: when the move into quarantine fails, `ImageReviewer.delete_image`
does NOT leave the state unchanged: it pushes no history entry and leaves
the counters and filesystem alone, but still removes the current item from
the queue, and the handler returns the plain `"break"` value (the failure
is only printed to the console).  Concretely, on a one-image session a
failing delete empties the queue. -/
theorem delete_image_failed_move_still_mutates_queue :
    imgOnePic.image_paths = ["/pics/a.jpg"] ∧
    (ImageReviewer.delete_image false imgOnePic).2.image_paths = [] ∧
    (ImageReviewer.delete_image false imgOnePic).2.history = [] ∧
    (ImageReviewer.delete_image false imgOnePic).2.deleted_count = 0 ∧
    (ImageReviewer.delete_image false imgOnePic).2.fs = imgOnePic.fs ∧
    (ImageReviewer.delete_image false imgOnePic).1 = PyRet.ret "break" := by
  decide

/-- C3: with a delete entry as the most recent history entry,
`ImageReviewer.go_back` raises `ValueError` at the tuple unpack
(src/Image.py line 149): the entry is popped and lost, the file is NOT
restored (it still sits in `_deleted`, the original path stays vacant),
the queue stays empty and `deleted_count` stays 1.  By contrast
`VideoReviewer.go_back` performs the claimed undo in full: the file is
back at its original path and out of quarantine, the item is back at its
original queue position with the cursor there, and `deleted_count` is
back to 0. -/
theorem go_back_after_delete_raises_and_restores_nothing :
    imgAfterDelete.history = [ImgEntry.delete "/pics/_deleted/a.jpg" "/pics/a.jpg"] ∧
    (ImageReviewer.go_back imgAfterDelete).1 = PyRet.raised PyExn.valueError ∧
    (ImageReviewer.go_back imgAfterDelete).2.history = [] ∧
    (ImageReviewer.go_back imgAfterDelete).2.image_paths = [] ∧
    (ImageReviewer.go_back imgAfterDelete).2.deleted_count = 1 ∧
    fsLookup (ImageReviewer.go_back imgAfterDelete).2.fs "/pics/_deleted/a.jpg" = some 1 ∧
    fsLookup (ImageReviewer.go_back imgAfterDelete).2.fs "/pics/a.jpg" = none ∧
    (VideoReviewer.go_back true vidAfterDelete).2.video_paths = ["/vids/x.mp4"] ∧
    (VideoReviewer.go_back true vidAfterDelete).2.index = 0 ∧
    (VideoReviewer.go_back true vidAfterDelete).2.deleted_count = 0 ∧
    fsLookup (VideoReviewer.go_back true vidAfterDelete).2.fs "/vids/x.mp4" = some 1 ∧
    fsLookup (VideoReviewer.go_back true vidAfterDelete).2.fs "/vids/_deleted/x.mp4" = none := by
  decide

/-- C4 counterexample: when the restoring move fails,
`VideoReviewer.go_back` does NOT push the popped delete entry back: the
history entry is simply gone afterwards. -/
theorem video_undo_restore_failure_drops_entry :
    vidAfterDelete.history = [VidEntry.delete "/vids/_deleted/x.mp4" "/vids/x.mp4" 0] ∧
    (VideoReviewer.go_back false vidAfterDelete).2.history = [] := by
  decide

/-- C4 amended: on a failing restore, `VideoReviewer.go_back` surfaces the
error (a dialog; the handler still returns `"break"`) and leaves the
queue, cursor, counters and filesystem unchanged, but the popped delete
entry is not re-pushed — the history loses its top entry.
`ImageReviewer.go_back` never even reaches the restore: it raises
`ValueError` at the tuple unpack with the same net effect, the popped
entry is lost and everything else is unchanged. -/
theorem undo_restore_failure_pops_without_repush :
    (∀ (s : VidState) (dp op : String) (pi : Nat) (t : List VidEntry),
        s.history = VidEntry.delete dp op pi :: t →
        (VideoReviewer.go_back false s).1 = PyRet.ret "break" ∧
        (VideoReviewer.go_back false s).2.video_paths = s.video_paths ∧
        (VideoReviewer.go_back false s).2.index = s.index ∧
        (VideoReviewer.go_back false s).2.deleted_count = s.deleted_count ∧
        (VideoReviewer.go_back false s).2.kept_count = s.kept_count ∧
        (VideoReviewer.go_back false s).2.fs = s.fs ∧
        (VideoReviewer.go_back false s).2.history = t) ∧
    (∀ (s : ImgState) (dp op : String) (t : List ImgEntry),
        s.history = ImgEntry.delete dp op :: t →
        (ImageReviewer.go_back s).1 = PyRet.raised PyExn.valueError ∧
        (ImageReviewer.go_back s).2 = { s with history := t }) := by
  constructor
  · intro s dp op pi t hh
    simp [VideoReviewer.go_back, hh]
  · intro s dp op t hh
    simp [ImageReviewer.go_back, hh]

theorem undo_restore_failure_pops_without_repush_witness :
    (VideoReviewer.go_back false vidAfterDelete).1 = PyRet.ret "break" ∧
    (VideoReviewer.go_back false vidAfterDelete).2.video_paths = vidAfterDelete.video_paths ∧
    (VideoReviewer.go_back false vidAfterDelete).2.index = vidAfterDelete.index ∧
    (VideoReviewer.go_back false vidAfterDelete).2.deleted_count = vidAfterDelete.deleted_count ∧
    (VideoReviewer.go_back false vidAfterDelete).2.kept_count = vidAfterDelete.kept_count ∧
    (VideoReviewer.go_back false vidAfterDelete).2.fs = vidAfterDelete.fs ∧
    (VideoReviewer.go_back false vidAfterDelete).2.history = [] :=
  undo_restore_failure_pops_without_repush.1 vidAfterDelete
    "/vids/_deleted/x.mp4" "/vids/x.mp4" 0 [] (by decide)

/-- C7 counterexample: calling delete or keep on an exhausted session does
not return an out-of-range-class result.  Every handler returns the same
plain `"break"` sentinel that a successful mid-session call returns, so
the boundary call is indistinguishable from a success by its result. -/
theorem exhausted_calls_return_plain_break :
    imgExhausted.index = imgExhausted.image_paths.length ∧
    (ImageReviewer.delete_image true imgExhausted).1
      = (ImageReviewer.delete_image true imgOnePic).1 ∧
    (ImageReviewer.keep_image imgExhausted).1
      = (ImageReviewer.keep_image imgOnePic).1 ∧
    (ImageReviewer.delete_image true imgExhausted).1 = PyRet.ret "break" ∧
    vidExhausted.index = vidExhausted.video_paths.length ∧
    (VideoReviewer.delete_video true vidExhausted).1
      = (VideoReviewer.delete_video true vidOneVid).1 ∧
    (VideoReviewer.keep_video vidExhausted).1
      = (VideoReviewer.keep_video vidOneVid).1 ∧
    (VideoReviewer.delete_video true vidExhausted).1 = PyRet.ret "break" := by
  decide

/-- C7 amended: with the cursor at or past the queue length, delete and
keep in both reviewers are exact no-ops — queue, history, counters and
filesystem untouched — and return the generic `"break"` sentinel (there is
no distinguishable out-of-range result). -/
theorem exhausted_keep_delete_noop :
    (∀ (s : ImgState) (ok : Bool), s.image_paths.length ≤ s.index →
        ImageReviewer.delete_image ok s = (PyRet.ret "break", s) ∧
        ImageReviewer.keep_image s = (PyRet.ret "break", s)) ∧
    (∀ (s : VidState) (ok : Bool), s.video_paths.length ≤ s.index →
        VideoReviewer.delete_video ok s = (PyRet.ret "break", s) ∧
        VideoReviewer.keep_video s = (PyRet.ret "break", s)) := by
  constructor
  · intro s ok h
    constructor
    · simp [ImageReviewer.delete_image, ge_iff_le, h]
    · simp [ImageReviewer.keep_image, ge_iff_le, h]
  · intro s ok h
    constructor
    · simp [VideoReviewer.delete_video, ge_iff_le, h]
    · simp [VideoReviewer.keep_video, ge_iff_le, h]

theorem exhausted_keep_delete_noop_witness :
    ImageReviewer.delete_image true imgExhausted = (PyRet.ret "break", imgExhausted) ∧
    ImageReviewer.keep_image imgExhausted = (PyRet.ret "break", imgExhausted) :=
  exhausted_keep_delete_noop.1 imgExhausted true (by decide)

/-- A one-image session whose quarantine directory already holds a
different file with the same basename `a.jpg` (identity 2). -/
def imgCollision : ImgState :=
  imgInit "/pics" ["/pics/a.jpg"] [("/pics/a.jpg", 1), ("/pics/_deleted/a.jpg", 2)]

/-- A one-video session with the analogous quarantine collision. -/
def vidCollision : VidState :=
  vidInit "/vids" ["/vids/x.mp4"] [("/vids/x.mp4", 1), ("/vids/_deleted/x.mp4", 2)]

/-- C8: neither delete checks for a quarantine collision.  With
`_deleted/a.jpg` already present, `delete_image` succeeds with the plain
`"break"` result (no error of any kind) and the rename silently replaces
the quarantined file: afterwards the quarantine path holds identity 1 and
identity 2 (the previously quarantined file) exists nowhere on the
filesystem.  The video reviewer behaves identically. -/
theorem delete_silently_overwrites_quarantined_file :
    fsLookup imgCollision.fs "/pics/_deleted/a.jpg" = some 2 ∧
    (ImageReviewer.delete_image true imgCollision).1 = PyRet.ret "break" ∧
    fsLookup (ImageReviewer.delete_image true imgCollision).2.fs
      "/pics/_deleted/a.jpg" = some 1 ∧
    ((ImageReviewer.delete_image true imgCollision).2.fs.all
      (fun e => e.2 != 2)) = true ∧
    fsLookup vidCollision.fs "/vids/_deleted/x.mp4" = some 2 ∧
    (VideoReviewer.delete_video true vidCollision).1 = PyRet.ret "break" ∧
    fsLookup (VideoReviewer.delete_video true vidCollision).2.fs
      "/vids/_deleted/x.mp4" = some 1 ∧
    ((VideoReviewer.delete_video true vidCollision).2.fs.all
      (fun e => e.2 != 2)) = true := by
  decide

/-- C9 counterexample: a video session whose current item cannot be loaded
is NOT treated as an implicit delete.  `show_video` mutates no session
field, so after rendering, the broken file is still at its original path,
nothing entered quarantine, the queue still holds it and no counter
moved. -/
theorem show_video_ignores_unloadable_current :
    VideoReviewer.show_video (fun _ => false) vidOneVid = vidOneVid ∧
    vidOneVid.index = 0 ∧
    vidOneVid.video_paths = ["/vids/x.mp4"] ∧
    fsLookup vidOneVid.fs "/vids/x.mp4" = some 1 ∧
    fsLookup vidOneVid.fs "/vids/_deleted/x.mp4" = none ∧
    vidOneVid.deleted_count = 0 := by
  decide

/-- C9 amended: only the image reviewer treats an unloadable current item
as an implicit delete — its renderer performs exactly `delete_image`
(quarantine move plus queue removal, no user input).  The video reviewer's
renderer has no such branch: its state effect is the identity for every
loadability oracle. -/
theorem broken_file_implicit_delete_image_only :
    (∀ (loadable : String → Bool) (ok : Bool) (s : ImgState),
        s.index < s.image_paths.length →
        loadable (s.image_paths.getD s.index "") = false →
        ImageReviewer.show_image loadable ok s = (ImageReviewer.delete_image ok s).2) ∧
    (∀ (loadable : String → Bool) (s : VidState),
        VideoReviewer.show_video loadable s = s) := by
  constructor
  · intro loadable ok s h1 h2
    unfold ImageReviewer.show_image
    rw [if_neg (by omega), h2]
    simp
  · intro loadable s
    rfl

theorem broken_file_implicit_delete_image_only_witness :
    ImageReviewer.show_image (fun _ => false) true imgOnePic
      = (ImageReviewer.delete_image true imgOnePic).2 ∧
    VideoReviewer.show_video (fun _ => false) vidOneVid = vidOneVid :=
  ⟨broken_file_implicit_delete_image_only.1 (fun _ => false) true imgOnePic
      (by decide) rfl,
    broken_file_implicit_delete_image_only.2 (fun _ => false) vidOneVid⟩

/-- C5: a keep immediately followed by undo restores the cursor to its
pre-keep value, brings the kept counter back down by 1 (to its pre-keep
value), and leaves the queue list itself — hence its set of items —
unchanged, in both reviewers.  The image reviewer performs exactly these
mutations before its undo handler dies at the debug print
(src/Image.py line 161), so the session state carries them regardless.
The video reviewer relocates the kept item with `list.index`, so the
scanned queue is assumed duplicate-free (true of any directory listing). -/
theorem keep_then_undo_round_trip :
    (∀ (s : ImgState), s.index < s.image_paths.length →
        (ImageReviewer.go_back (ImageReviewer.keep_image s).2).2.index = s.index ∧
        (ImageReviewer.go_back (ImageReviewer.keep_image s).2).2.kept_count = s.kept_count ∧
        (ImageReviewer.go_back (ImageReviewer.keep_image s).2).2.kept_count
          = (ImageReviewer.keep_image s).2.kept_count - 1 ∧
        (ImageReviewer.go_back (ImageReviewer.keep_image s).2).2.image_paths
          = s.image_paths) ∧
    (∀ (s : VidState) (ok : Bool),
        s.index < s.video_paths.length → s.video_paths.Nodup →
        (VideoReviewer.go_back ok (VideoReviewer.keep_video s).2).2.index = s.index ∧
        (VideoReviewer.go_back ok (VideoReviewer.keep_video s).2).2.kept_count
          = s.kept_count ∧
        (VideoReviewer.go_back ok (VideoReviewer.keep_video s).2).2.kept_count
          = (VideoReviewer.keep_video s).2.kept_count - 1 ∧
        (VideoReviewer.go_back ok (VideoReviewer.keep_video s).2).2.video_paths
          = s.video_paths) := by
  constructor
  · intro s h
    have hg : ¬ s.index ≥ s.image_paths.length := by omega
    simp only [ImageReviewer.keep_image, if_neg hg, ImageReviewer.go_back]
    refine ⟨?_, ?_, ?_, ?_⟩ <;> simp <;> omega
  · intro s ok h hnd
    have hg : ¬ s.index ≥ s.video_paths.length := by omega
    have hidx := listIndex_getD_of_nodup s.video_paths s.index hnd h
    simp only [VideoReviewer.keep_video, if_neg hg, VideoReviewer.go_back, hidx]
    refine ⟨?_, ?_, ?_, ?_⟩ <;> simp <;> omega

theorem keep_then_undo_round_trip_witness :
    ((ImageReviewer.go_back (ImageReviewer.keep_image imgOnePic).2).2.index
        = imgOnePic.index ∧
      (ImageReviewer.go_back (ImageReviewer.keep_image imgOnePic).2).2.kept_count
        = imgOnePic.kept_count ∧
      (ImageReviewer.go_back (ImageReviewer.keep_image imgOnePic).2).2.kept_count
        = (ImageReviewer.keep_image imgOnePic).2.kept_count - 1 ∧
      (ImageReviewer.go_back (ImageReviewer.keep_image imgOnePic).2).2.image_paths
        = imgOnePic.image_paths) ∧
    ((VideoReviewer.go_back true (VideoReviewer.keep_video vidOneVid).2).2.index
        = vidOneVid.index ∧
      (VideoReviewer.go_back true (VideoReviewer.keep_video vidOneVid).2).2.kept_count
        = vidOneVid.kept_count ∧
      (VideoReviewer.go_back true (VideoReviewer.keep_video vidOneVid).2).2.kept_count
        = (VideoReviewer.keep_video vidOneVid).2.kept_count - 1 ∧
      (VideoReviewer.go_back true (VideoReviewer.keep_video vidOneVid).2).2.video_paths
        = vidOneVid.video_paths) :=
  ⟨keep_then_undo_round_trip.1 imgOnePic (by decide),
    keep_then_undo_round_trip.2 vidOneVid true (by decide) (by decide)⟩

theorem countKeepImg_nonneg : ∀ (h : List ImgEntry), 0 ≤ countKeepImg h
  | [] => le_refl 0
  | .keep _ :: t => by
      have := countKeepImg_nonneg t
      simp only [countKeepImg]
      omega
  | .delete _ _ :: t => by
      have := countKeepImg_nonneg t
      simpa only [countKeepImg]

theorem countKeepVid_nonneg : ∀ (h : List VidEntry), 0 ≤ countKeepVid h
  | [] => le_refl 0
  | .keep _ _ :: t => by
      have := countKeepVid_nonneg t
      simp only [countKeepVid]
      omega
  | .delete _ _ _ :: t => by
      have := countKeepVid_nonneg t
      simpa only [countKeepVid]

/-- The inductive invariant of an `ImageReviewer` session that starts with
`n` scanned items and whose filesystem moves all succeed: the cursor stays
inside `[0, len]`, never drops below the number of keep entries on the
stack, and `remaining + kept + deleted` (with `remaining = len - index`,
exactly the quantity `update_stats` displays, src/Image.py line 168) stays
equal to `n`. -/
def imgInv (n : Nat) (s : ImgState) : Prop :=
  s.index ≤ s.image_paths.length ∧
  countKeepImg s.history ≤ (s.index : Int) ∧
  (s.image_paths.length : Int) - s.index + s.kept_count + s.deleted_count = n

theorem imgStep_inv (o : Op) (s : ImgState) (n : Nat) (hok : o.succeeds = true)
    (h : imgInv n s) : imgInv n (imgStep o s) := by
  obtain ⟨h1, h2, h3⟩ := h
  cases o with
  | keep =>
      simp only [imgStep, ImageReviewer.keep_image]
      split
      · exact ⟨h1, h2, h3⟩
      · rename_i hg
        unfold imgInv
        dsimp only
        refine ⟨by omega, ?_, by omega⟩
        simp only [countKeepImg]
        omega
  | delete ok =>
      simp only [Op.succeeds] at hok
      subst hok
      simp only [imgStep, ImageReviewer.delete_image]
      split
      · exact ⟨h1, h2, h3⟩
      · rename_i hg
        have hlt : s.index < s.image_paths.length := by omega
        have hlen := List.length_eraseIdx_add_one hlt
        simp only [if_true]
        unfold imgInv
        dsimp only
        refine ⟨by omega, ?_, by omega⟩
        simp only [countKeepImg]
        omega
  | undo ok =>
      simp only [imgStep, ImageReviewer.go_back]
      cases hs : s.history with
      | nil => exact ⟨h1, h2, h3⟩
      | cons e t =>
          rw [hs] at h2
          cases e with
          | delete dp op =>
              simp only [countKeepImg] at h2
              exact ⟨h1, h2, h3⟩
          | keep p =>
              have hnn := countKeepImg_nonneg t
              simp only [countKeepImg] at h2
              unfold imgInv
              dsimp only
              exact ⟨by omega, by omega, by omega⟩

theorem imgRun_inv (ops : List Op) (s : ImgState) (n : Nat)
    (hok : ∀ o ∈ ops, o.succeeds = true) (h : imgInv n s) :
    imgInv n (imgRun ops s) := by
  induction ops generalizing s with
  | nil => simpa [imgRun] using h
  | cons o ops ih =>
      have h1 := imgStep_inv o s n (hok o (List.mem_cons_self o ops)) h
      simpa [imgRun, List.foldl_cons] using
        ih (imgStep o s) (fun o ho => hok o (List.mem_cons_of_mem _ ho)) h1

/-- How a `VideoReviewer` history stack relates to the current queue and
cursor.  Each keep entry on top was pushed from the position right below
the current cursor and its path still sits (first) at the recorded
position; each delete entry was pushed at the current cursor with the
removed path absent from the queue; deeper entries are judged against the
queue rolled back across the entries above them. -/
def VHistOK : List VidEntry → List String → Nat → Prop
  | [], _, _ => True
  | .keep p pi :: t, ps, i =>
      i = pi + 1 ∧ listIndex ps p = some pi ∧ VHistOK t ps pi
  | .delete _ op pi :: t, ps, i =>
      i = pi ∧ pi ≤ ps.length ∧ op ∉ ps ∧ VHistOK t (listInsert pi op ps) pi

/-- The inductive invariant of a `VideoReviewer` session that starts with
`n` scanned, pairwise distinct items and whose filesystem moves all
succeed: cursor within bounds, queue duplicate-free, history consistent
with the queue, and `remaining + kept + deleted` (with
`remaining = len - index`, the quantity `update_stats` displays,
src/Video.py line 377) equal to `n`. -/
def vidInv (n : Nat) (s : VidState) : Prop :=
  s.index ≤ s.video_paths.length ∧
  s.video_paths.Nodup ∧
  VHistOK s.history s.video_paths s.index ∧
  (s.video_paths.length : Int) - s.index + s.kept_count + s.deleted_count = n

/-- Normal form of a successful delete from an active video session: the
cursor renormalisation at src/Video.py lines 275-276 never changes the
cursor (after removing the current item the cursor is already at most the
new length), so the result is a single record update. -/
theorem delete_video_active (s : VidState) (h : s.index < s.video_paths.length) :
    (VideoReviewer.delete_video true s).2 =
      { s with
        fs := fsRename s.fs (s.video_paths.getD s.index "")
            (pathJoin s.deleted_folder (basename (s.video_paths.getD s.index ""))),
        history := VidEntry.delete
            (pathJoin s.deleted_folder (basename (s.video_paths.getD s.index "")))
            (s.video_paths.getD s.index "") s.index :: s.history,
        deleted_count := s.deleted_count + 1,
        video_paths := s.video_paths.eraseIdx s.index } := by
  have hg : ¬ s.index ≥ s.video_paths.length := by omega
  have hlen := List.length_eraseIdx_add_one h
  simp only [VideoReviewer.delete_video, if_neg hg, if_true]
  try dsimp only
  split
  · rename_i hge
    try dsimp only at hge
    have hmax : max 0 (s.video_paths.eraseIdx s.index).length = s.index := by omega
    rw [hmax]
  · rfl

theorem vidStep_inv (o : Op) (s : VidState) (n : Nat) (hok : o.succeeds = true)
    (h : vidInv n s) : vidInv n (vidStep o s) := by
  obtain ⟨h1, h2, h3, h4⟩ := h
  cases o with
  | keep =>
      simp only [vidStep, VideoReviewer.keep_video]
      split
      · exact ⟨h1, h2, h3, h4⟩
      · rename_i hg
        have hlt : s.index < s.video_paths.length := by omega
        unfold vidInv
        dsimp only
        refine ⟨by omega, h2, ?_, by omega⟩
        exact ⟨rfl, listIndex_getD_of_nodup s.video_paths s.index h2 hlt, h3⟩
  | delete ok =>
      simp only [Op.succeeds] at hok
      subst hok
      by_cases hge : s.index ≥ s.video_paths.length
      · simp only [vidStep, VideoReviewer.delete_video, if_pos hge]
        exact ⟨h1, h2, h3, h4⟩
      · have hlt : s.index < s.video_paths.length := by omega
        have hlen := List.length_eraseIdx_add_one hlt
        simp only [vidStep]
        rw [delete_video_active s hlt]
        unfold vidInv
        dsimp only
        refine ⟨by omega, h2.eraseIdx s.index, ?_, by omega⟩
        refine ⟨rfl, by omega, ?_, ?_⟩
        · exact getD_not_mem_eraseIdx s.video_paths s.index h2 hlt
        · rw [listInsert_getD_eraseIdx s.video_paths s.index hlt]
          exact h3
  | undo ok =>
      simp only [Op.succeeds] at hok
      subst hok
      simp only [vidStep, VideoReviewer.go_back]
      cases hs : s.history with
      | nil => exact ⟨h1, h2, h3, h4⟩
      | cons e t =>
          rw [hs] at h3
          cases e with
          | delete dp op pi =>
              obtain ⟨hip, hple, hnm, hrest⟩ := h3
              subst hip
              simp only [if_true]
              have hmin : min s.index s.video_paths.length = s.index :=
                Nat.min_eq_left hple
              try dsimp only
              rw [hmin]
              unfold vidInv
              try dsimp only
              refine ⟨?_, nodup_listInsert op s.index s.video_paths h2 hnm,
                hrest, ?_⟩
              · rw [listInsert_length]
                omega
              · rw [listInsert_length]
                push_cast
                omega
          | keep p pi =>
              obtain ⟨hip, hfind, hrest⟩ := h3
              have hlt := listIndex_lt_length s.video_paths p pi hfind
              try dsimp only
              rw [hfind]
              unfold vidInv
              try dsimp only
              exact ⟨by omega, h2, hrest, by omega⟩

theorem vidRun_inv (ops : List Op) (s : VidState) (n : Nat)
    (hok : ∀ o ∈ ops, o.succeeds = true) (h : vidInv n s) :
    vidInv n (vidRun ops s) := by
  induction ops generalizing s with
  | nil => simpa [vidRun] using h
  | cons o ops ih =>
      have h1 := vidStep_inv o s n (hok o (List.mem_cons_self o ops)) h
      simpa [vidRun, List.foldl_cons] using
        ih (vidStep o s) (fun o ho => hok o (List.mem_cons_of_mem _ ho)) h1

theorem imgInit_inv (folder : String) (paths : List String) (fs : FS) :
    imgInv paths.length (imgInit folder paths fs) := by
  unfold imgInv imgInit
  refine ⟨Nat.zero_le _, ?_, ?_⟩ <;> simp [countKeepImg]

theorem vidInit_inv (folder : String) (paths : List String) (fs : FS)
    (hnd : paths.Nodup) : vidInv paths.length (vidInit folder paths fs) := by
  unfold vidInv vidInit
  refine ⟨Nat.zero_le _, hnd, trivial, ?_⟩
  simp

/-- The condition under which `show_image` declares the image session
complete and shows "All done!" (src/Image.py lines 86-87). -/
def imgSessionComplete (s : ImgState) : Prop :=
  s.index ≥ s.image_paths.length

/-- The condition under which `show_video` declares the video session
complete (src/Video.py lines 231-234). -/
def vidSessionComplete (s : VidState) : Prop :=
  s.index ≥ s.video_paths.length

/-- C2 counterexample: the invariant does not survive a delete whose
quarantine move fails.  On a freshly scanned one-image session, a single
failed delete still removes the item from the queue (the same defect C1
records) while no counter moves, so `remaining + kept + deleted` drops
to 0 even though the session started with 1 item. -/
theorem failed_delete_breaks_remaining_invariant :
    imgOnePic.image_paths.length = 1 ∧
    imgOnePic.index = 0 ∧ imgOnePic.kept_count = 0 ∧ imgOnePic.deleted_count = 0 ∧
    ((imgRun [Op.delete false] imgOnePic).image_paths.length : Int)
        - (imgRun [Op.delete false] imgOnePic).index
        + (imgRun [Op.delete false] imgOnePic).kept_count
        + (imgRun [Op.delete false] imgOnePic).deleted_count = 0 := by
  decide

/-- C2 amended: starting from a freshly scanned duplicate-free queue of
`paths.length` items, after every sequence of keep/delete/undo actions
ALL OF WHOSE filesystem moves succeed, `remaining + kept + deleted`
equals the initial item count, where `remaining = len(queue) - cursor` is
exactly the "Remaining" figure `update_stats` displays — in both
reviewers.  The success assumption is forced by the counterexample above:
a failed image-reviewer delete mutates the queue without moving a
counter. -/
theorem remaining_plus_kept_plus_deleted_constant
    (ops : List Op) (folder : String) (paths : List String) (fs : FS)
    (hok : ∀ o ∈ ops, o.succeeds = true) (hnd : paths.Nodup) :
    ((imgRun ops (imgInit folder paths fs)).image_paths.length : Int)
        - (imgRun ops (imgInit folder paths fs)).index
        + (imgRun ops (imgInit folder paths fs)).kept_count
        + (imgRun ops (imgInit folder paths fs)).deleted_count = paths.length ∧
    ((vidRun ops (vidInit folder paths fs)).video_paths.length : Int)
        - (vidRun ops (vidInit folder paths fs)).index
        + (vidRun ops (vidInit folder paths fs)).kept_count
        + (vidRun ops (vidInit folder paths fs)).deleted_count = paths.length := by
  have hi := imgRun_inv ops (imgInit folder paths fs) paths.length hok
    (imgInit_inv folder paths fs)
  have hv := vidRun_inv ops (vidInit folder paths fs) paths.length hok
    (vidInit_inv folder paths fs hnd)
  exact ⟨hi.2.2, hv.2.2.2⟩

/-- A short demonstration session: delete the first item, keep the next,
then undo both. -/
def opsDemo : List Op := [Op.delete true, Op.keep, Op.undo true, Op.undo true]

def demoPaths : List String := ["/m/a.jpg", "/m/b.jpg"]

def demoFS : FS := [("/m/a.jpg", 1), ("/m/b.jpg", 2)]

theorem remaining_plus_kept_plus_deleted_constant_witness :
    ((imgRun opsDemo (imgInit "/m" demoPaths demoFS)).image_paths.length : Int)
        - (imgRun opsDemo (imgInit "/m" demoPaths demoFS)).index
        + (imgRun opsDemo (imgInit "/m" demoPaths demoFS)).kept_count
        + (imgRun opsDemo (imgInit "/m" demoPaths demoFS)).deleted_count
        = demoPaths.length ∧
    ((vidRun opsDemo (vidInit "/m" demoPaths demoFS)).video_paths.length : Int)
        - (vidRun opsDemo (vidInit "/m" demoPaths demoFS)).index
        + (vidRun opsDemo (vidInit "/m" demoPaths demoFS)).kept_count
        + (vidRun opsDemo (vidInit "/m" demoPaths demoFS)).deleted_count
        = demoPaths.length :=
  remaining_plus_kept_plus_deleted_constant opsDemo "/m" demoPaths demoFS
    (by decide) (by decide)

theorem imgStep_index_le (o : Op) (s : ImgState)
    (h : s.index ≤ s.image_paths.length) :
    (imgStep o s).index ≤ (imgStep o s).image_paths.length := by
  cases o with
  | keep =>
      simp only [imgStep, ImageReviewer.keep_image]
      split
      · exact h
      · rename_i hg
        dsimp only
        omega
  | delete ok =>
      simp only [imgStep, ImageReviewer.delete_image]
      split
      · exact h
      · rename_i hg
        have hlt : s.index < s.image_paths.length := by omega
        have hlen := List.length_eraseIdx_add_one hlt
        split
        · dsimp only
          omega
        · dsimp only
          omega
  | undo ok =>
      simp only [imgStep, ImageReviewer.go_back]
      cases hs : s.history with
      | nil => exact h
      | cons e t =>
          cases e with
          | delete dp op => exact h
          | keep p =>
              dsimp only
              omega

theorem vidStep_index_le (o : Op) (s : VidState)
    (h : s.index ≤ s.video_paths.length) :
    (vidStep o s).index ≤ (vidStep o s).video_paths.length := by
  cases o with
  | keep =>
      simp only [vidStep, VideoReviewer.keep_video]
      split
      · exact h
      · rename_i hg
        dsimp only
        omega
  | delete ok =>
      simp only [vidStep, VideoReviewer.delete_video]
      split
      · exact h
      · rename_i hg
        have hlt : s.index < s.video_paths.length := by omega
        have hlen := List.length_eraseIdx_add_one hlt
        split
        · split
          · dsimp only
            omega
          · rename_i hin
            dsimp only at hin ⊢
            omega
        · exact h
  | undo ok =>
      simp only [vidStep, VideoReviewer.go_back]
      cases hs : s.history with
      | nil => exact h
      | cons e t =>
          cases e with
          | delete dp op pi =>
              cases ok
              · exact h
              · simp only [if_true]
                try dsimp only
                have := listInsert_length (min pi s.video_paths.length) op s.video_paths
                omega
          | keep p pi =>
              try dsimp only
              cases hix : listIndex s.video_paths p with
              | none =>
                  try dsimp only
                  have := listInsert_length (min pi s.video_paths.length) p s.video_paths
                  omega
              | some pos =>
                  try dsimp only
                  have := listIndex_lt_length s.video_paths p pos hix
                  omega

theorem imgRun_index_le (ops : List Op) (s : ImgState)
    (h : s.index ≤ s.image_paths.length) :
    (imgRun ops s).index ≤ (imgRun ops s).image_paths.length := by
  induction ops generalizing s with
  | nil => simpa [imgRun] using h
  | cons o ops ih =>
      simpa [imgRun, List.foldl_cons] using ih (imgStep o s) (imgStep_index_le o s h)

theorem vidRun_index_le (ops : List Op) (s : VidState)
    (h : s.index ≤ s.video_paths.length) :
    (vidRun ops s).index ≤ (vidRun ops s).video_paths.length := by
  induction ops generalizing s with
  | nil => simpa [vidRun] using h
  | cons o ops ih =>
      simpa [vidRun, List.foldl_cons] using ih (vidStep o s) (vidStep_index_le o s h)

/-- C6: after every sequence of keep/delete/undo actions from a freshly
scanned session — whatever the outcome of each filesystem move — the
cursor satisfies `0 ≤ cursor ≤ len(queue)`, and it equals the queue
length exactly when the reviewer's own completion test (`index >= len`,
the "All done!" condition) holds, in both reviewers. -/
theorem cursor_within_bounds_iff_complete
    (ops : List Op) (folder : String) (paths : List String) (fs : FS) :
    ((imgRun ops (imgInit folder paths fs)).index
        ≤ (imgRun ops (imgInit folder paths fs)).image_paths.length ∧
      ((imgRun ops (imgInit folder paths fs)).index
          = (imgRun ops (imgInit folder paths fs)).image_paths.length ↔
        imgSessionComplete (imgRun ops (imgInit folder paths fs)))) ∧
    ((vidRun ops (vidInit folder paths fs)).index
        ≤ (vidRun ops (vidInit folder paths fs)).video_paths.length ∧
      ((vidRun ops (vidInit folder paths fs)).index
          = (vidRun ops (vidInit folder paths fs)).video_paths.length ↔
        vidSessionComplete (vidRun ops (vidInit folder paths fs)))) := by
  have hi := imgRun_index_le ops (imgInit folder paths fs) (Nat.zero_le _)
  have hv := vidRun_index_le ops (vidInit folder paths fs) (Nat.zero_le _)
  unfold imgSessionComplete vidSessionComplete
  exact ⟨⟨hi, by omega⟩, ⟨hv, by omega⟩⟩
